import Mathlib

/-!
Shallow embedding of the binding-synthesis module (`src/compile/nodes/Binding.ts`):
the `Binding` directive model, the `munge` synthesis engine, and its helpers
`getDomUpdater`, `getBindingGroup`, `getEventHandler`, `getValueFromDom`.
JavaScript strings become `String`, arrays become `List`, `undefined`/`null`
results become `Option`, and the mutation of `compiler.bindingGroups` and of the
`block` builders is made explicit by threading the updated values through.
-/

namespace Svelte

/-- A static attribute value as returned by `Element#getStaticAttributeValue`:
a string literal, the literal `true` (valueless attribute), or null/undefined
(attribute absent or not statically known). -/
inductive StaticAttrValue
  | str (s : String)
  | boolTrue
  | null
deriving DecidableEq

/-- JavaScript string coercion applied when a static attribute value flows into
`RegExp#test` (null coerces to "null", true to "true"). -/
def StaticAttrValue.coerceToString : StaticAttrValue → String
  | .str s => s
  | .boolTrue => "true"
  | .null => "null"

/-- Boolean test: the first character list is a prefix of the second. -/
def prefB : List Char → List Char → Bool
  | [], _ => true
  | _ :: _, [] => false
  | a :: as, b :: bs => a == b && prefB as bs

/-- Boolean test: `pat` occurs contiguously somewhere inside the second list. -/
def subB (pat : List Char) : List Char → Bool
  | [] => prefB pat []
  | b :: bs => prefB pat (b :: bs) || subB pat bs

/-- `/radio|checkbox|range|color/.test(s)`: the regex is unanchored, so it
matches exactly when `s` contains one of the four alternatives as a substring. -/
def typeRegexTest (s : String) : Bool :=
  subB "radio".data s.data || subB "checkbox".data s.data ||
    subB "range".data s.data || subB "color".data s.data

/-- The fixed read-only media attribute set from the top of the source file. -/
def readOnlyMediaAttributes : List String :=
  ["duration", "buffered", "seekable", "played"]

/-- Modelled from the spec: the `dimensions` pattern lives in `utils/patterns`,
which is not part of this source tree.  The source comment ("bind:offsetWidth
and bind:offsetHeight") and the spec's dimension-binding scenario name exactly
these measured-size attributes. -/
def dimensionsTest (s : String) : Bool :=
  s == "offsetWidth" || s == "offsetHeight"

/-- The shape of a binding's target expression: a bare identifier or a member
chain (`a.b`, `a[b]`). -/
inductive JSNode
  | ident (name : String)
  | member (obj : JSNode) (prop : String) (computed : Bool)
deriving DecidableEq

/-- `getObject` walks a member chain down to its base node. -/
def getObject : JSNode → JSNode
  | .ident n => .ident n
  | .member obj _ _ => getObject obj

/-- The `.name` of the base identifier of the target expression
(`const \x7b name \x7d = getObject(this.value.node)`). -/
def objectName (n : JSNode) : String :=
  match getObject n with
  | .ident m => m
  | .member _ _ _ => ""

/-- Boolean test for `node.type === "MemberExpression"`. -/
def JSNode.isMember : JSNode → Bool
  | .ident _ => false
  | .member _ _ _ => true

/-- `flattenReference(value).parts`: the chain of names from base to tip. -/
def flattenParts : JSNode → List String
  | .ident n => [n]
  | .member obj prop _ => flattenParts obj ++ [prop]

/-- The dot-joined keypath used by the binding-group registry. -/
def keypathOf (n : JSNode) : String :=
  String.intercalate "." (flattenParts n)

/-- Modelled from the spec: `getTailSnippet` (a util outside this source tree)
renders the tail segment of a member chain below its base object. -/
def getTailSnippet : JSNode → String
  | .ident _ => ""
  | .member obj prop computed =>
      getTailSnippet obj ++ (if computed then "[" ++ prop ++ "]" else "." ++ prop)

/-- A resolved target expression: its AST shape, its rendered source snippet,
and its statically computed dependency set. -/
structure Expression where
  node : JSNode
  snippet : String
  dependencies : List String

/-- The directive model: binding name, resolved target expression, and whether
the target's base identifier is declared by the enclosing contextual scope. -/
structure Binding where
  name : String
  value : Expression
  isContextual : Bool

/-- A computed/derived state declaration; only its key is consulted here. -/
structure Computation where
  key : String

/-- The compiler state consulted by binding synthesis: the binding-group
registry, the indirect-dependency map, and the computed-state declarations. -/
structure Compiler where
  bindingGroups : List String
  indirectDependencies : String → Option (List String)
  computations : List Computation

/-- The host element context: tag name, generated variable name, media-node
classification, and static-attribute lookup. -/
structure Element where
  name : String
  var : String
  isMediaNode : Bool
  staticAttr : String → StaticAttrValue

/-- `Element#getStaticAttributeValue`. -/
def Element.getStaticAttributeValue (e : Element) (attr : String) : StaticAttrValue :=
  e.staticAttr attr

/-- The code-accumulation block: unique-name allocation, the per-name binding
heads for contextual targets, declared variables, and the hydrate/destroy
statement lists. -/
structure Block where
  uniqueName : String → String
  bindings : String → Option String
  vars : List (String × String)
  hydrate : List String
  destroy : List String

/-- `Binding#isReadOnlyMediaAttribute`. -/
def Binding.isReadOnlyMediaAttribute (b : Binding) : Bool :=
  readOnlyMediaAttributes.contains b.name

/-- Line 63: `node.name !== 'input' || !/radio|checkbox|range|color/.test(...)`. -/
def needsLockOf (node : Element) : Bool :=
  node.name != "input" ||
    !typeRegexTest (node.getStaticAttributeValue "type").coerceToString

/-- Lines 64-67: read-only when a read-only media attribute sits on a media
node, or the name is a dimension binding. -/
def isReadOnlyOf (node : Element) (b : Binding) : Bool :=
  (node.isMediaNode && readOnlyMediaAttributes.contains b.name) || dimensionsTest b.name

/-- JavaScript `Array#indexOf`, with `none` in place of `-1`. -/
def findIdx? : List String → String → Option Nat
  | [], _ => none
  | a :: as, x => if a = x then some 0 else (findIdx? as x).map (· + 1)

/-- The allocate-or-lookup core of `getBindingGroup`, on the keypath registry
`compiler.bindingGroups`: reuse the index of a known keypath, otherwise append
the keypath and hand out the next sequential index. -/
def allocGroup (groups : List String) (keypath : String) : Nat × List String :=
  match findIdx? groups keypath with
  | some i => (i, groups)
  | none => (groups.length, groups ++ [keypath])

/-- `getBindingGroup`: flatten the target to a keypath and allocate-or-lookup
its registry index. -/
def getBindingGroup (c : Compiler) (value : JSNode) : Nat × Compiler :=
  let kp := keypathOf value
  let r := allocGroup c.bindingGroups kp
  (r.1, { c with bindingGroups := r.2 })

/-- `getDomUpdater`: the model-to-view write statement, or `none` when the
binding is read-only from the model's perspective. -/
def getDomUpdater (node : Element) (binding : Binding) (snippet : String) : Option String :=
  let v := node.var
  let bn := binding.name
  if binding.isReadOnlyMediaAttribute then
    none
  else if node.name = "select" then
    if node.getStaticAttributeValue "multiple" = .boolTrue then
      some s!"@selectOptions({v}, {snippet})"
    else
      some s!"@selectOption({v}, {snippet})"
  else if binding.name = "group" then
    let cond :=
      if node.getStaticAttributeValue "type" = .str "checkbox" then
        s!"~{snippet}.indexOf({v}.__value)"
      else
        s!"{v}.__value === {snippet}"
    some s!"{v}.checked = {cond};"
  else
    some s!"{v}.{bn} = {snippet};"

/-- The event-handler bundle returned by `getEventHandler`. -/
structure EventHandler where
  usesContext : Bool
  usesState : Bool
  usesStore : Bool
  mutation : Option String
  props : List String
  storeProps : List String
deriving DecidableEq

/-- `prop[0] === '$'`: the store-prefix test on the first character (an empty
string has no first character and never matches). -/
def startsWithDollar (s : String) : Bool :=
  match s.data with
  | [] => false
  | ch :: _ => ch == '$'

/-- One `props` entry: `` `${prop}: ctx.${prop}` ``. -/
def fmtProp (p : String) : String := p ++ ": ctx." ++ p

/-- One `storeProps` entry: `` `${prop}: $.${prop}` ``. -/
def fmtStoreProp (p : String) : String := p ++ ": $." ++ p

/-- `getEventHandler`: splits dependencies into store-prefixed and local ones,
then produces one of the three mutually exclusive handler shapes. -/
def getEventHandler (binding : Binding) (compiler : Compiler) (block : Block)
    (name : String) (snippet : String) (dependencies : List String)
    (value : String) : EventHandler :=
  let storeDependencies :=
    (dependencies.filter startsWithDollar).map (fun p => p.drop 1)
  let deps := dependencies.filter (fun p => !startsWithDollar p)
  if binding.isContextual then
    let tail :=
      if binding.value.node.isMember then getTailSnippet binding.value.node else ""
    let head := (block.bindings name).getD "undefined"
    { usesContext := true
      usesState := true
      usesStore := !storeDependencies.isEmpty
      mutation := some (head ++ tail ++ " = " ++ value ++ ";")
      props := deps.map fmtProp
      storeProps := storeDependencies.map fmtStoreProp }
  else if binding.value.node.isMember then
    let deps2 :=
      deps.filter (fun p => !compiler.computations.any (fun c => c.key == p))
    { usesContext := false
      usesState := true
      usesStore := !storeDependencies.isEmpty
      mutation := some (snippet ++ " = " ++ value)
      props := deps2.map fmtProp
      storeProps := storeDependencies.map fmtStoreProp }
  else if startsWithDollar name then
    { usesContext := false
      usesState := false
      usesStore := false
      mutation := none
      props := []
      storeProps := [name.drop 1 ++ ": " ++ value] }
  else
    { usesContext := false
      usesState := false
      usesStore := false
      mutation := none
      props := [name ++ ": " ++ value]
      storeProps := [] }

/-- `getValueFromDom`: the view-to-model read expression; the grouped-binding
branch consults (and may grow) the binding-group registry. -/
def getValueFromDom (compiler : Compiler) (node : Element) (binding : Binding) :
    String × Compiler :=
  let v := node.var
  let bn := binding.name
  if node.name = "select" then
    (if node.getStaticAttributeValue "multiple" = .boolTrue then
       s!"@selectMultipleValue({v})"
     else
       s!"@selectValue({v})", compiler)
  else if binding.name = "group" then
    let r := getBindingGroup compiler binding.value.node
    let bindingGroup := r.1
    if node.getStaticAttributeValue "type" = .str "checkbox" then
      (s!"@getBindingGroupValue(#component._bindingGroups[{bindingGroup}])", r.2)
    else
      (s!"{v}.__value", r.2)
  else if node.getStaticAttributeValue "type" = .str "range" ∨
          node.getStaticAttributeValue "type" = .str "number" then
    (s!"@toNumber({v}.{bn})", compiler)
  else if binding.name = "buffered" ∨ binding.name = "seekable" ∨
          binding.name = "played" then
    (s!"@timeRangesToArray({v}.{bn})", compiler)
  else
    (s!"{v}.{bn}", compiler)

/-- Insertion into a JavaScript `Set` modelled on insertion-ordered lists. -/
def setAdd (s : List String) (x : String) : List String :=
  if x ∈ s then s else s ++ [x]

/-- Insert every element of `xs`, in order, into the set `s`. -/
def addAll (s : List String) (xs : List String) : List String :=
  xs.foldl setAdd s

/-- One step of the indirect-dependency expansion (lines 80-87). -/
def indStep (c : Compiler) (acc : List String) (p : String) : List String :=
  match c.indirectDependencies p with
  | some ind => addAll acc ind
  | none => acc

/-- Lines 79-87: `new Set(this.value.dependencies)` expanded with the indirect
dependencies registered for each base dependency. -/
def expandDependencies (c : Compiler) (base : List String) : List String :=
  base.foldl (indStep c) (addAll [] base)

/-- The group-membership registration statement pushed onto `hydrate`. -/
def regLine (idx : Nat) (v : String) : String :=
  s!"#component._bindingGroups[{idx}].push({v});"

/-- The group-membership deregistration statement pushed onto `destroy`. -/
def unregLine (idx : Nat) (v : String) : String :=
  s!"#component._bindingGroups[{idx}].splice(#component._bindingGroups[{idx}].indexOf({v}), 1);"

/-- The `!isNaN(...)` update guard for `currentTime` / `volume`. -/
def notNaNGuard (snippet : String) : String := s!"!isNaN({snippet})"

/-- The `paused` update guard comparing the last known and new values. -/
def pausedUpdateCondition (last snippet : String) : String :=
  s!"{last} !== ({last} = {snippet})"

/-- The `paused` write statement: a play/pause method invocation. -/
def pausedUpdateDom (v last : String) : String :=
  s!"{v}[{last} ? \"pause\" : \"play\"]();"

/-- The synthesis bundle returned by `Binding#munge`. -/
structure MungeResult where
  name : String
  object : String
  handler : EventHandler
  updateDom : Option String
  initialUpdate : Option String
  needsLock : Bool
  updateCondition : Option String
  isReadOnlyMediaAttribute : Bool

/-- `Binding#munge`: orchestrates view reader, event handler, view writer and
the binding-name special cases; the updated compiler (registry) and block are
returned alongside the result. -/
def Binding.munge (b : Binding) (node : Element) (compiler : Compiler)
    (block : Block) : MungeResult × Compiler × Block :=
  let needsLock := needsLockOf node
  let isReadOnly := isReadOnlyOf node b
  let objName := objectName b.value.node
  let snippet := b.value.snippet
  let dependencies := expandDependencies compiler b.value.dependencies
  let vfd := getValueFromDom compiler node b
  let handler := getEventHandler b vfd.2 block objName snippet dependencies vfd.1
  let updateDom0 := getDomUpdater node b snippet
  let groupIdx := (getBindingGroup vfd.2 b.value.node).1
  let c2 := if b.name = "group" then (getBindingGroup vfd.2 b.value.node).2 else vfd.2
  let block1 :=
    if b.name = "group" then
      { block with
          hydrate := block.hydrate ++ [regLine groupIdx node.var]
          destroy := block.destroy ++ [unregLine groupIdx node.var] }
    else block
  let last := block.uniqueName (node.var ++ "_is_paused")
  let block2 :=
    if b.name = "paused" then
      { block1 with vars := block1.vars ++ [(last, "true")] }
    else block1
  let updateCondition : Option String :=
    if b.name = "paused" then some (pausedUpdateCondition last snippet)
    else if b.name = "currentTime" ∨ b.name = "volume" then
      some (notNaNGuard snippet)
    else none
  let updateDom :=
    if dimensionsTest b.name then none
    else if b.name = "paused" then some (pausedUpdateDom node.var last)
    else updateDom0
  let initialUpdate :=
    if dimensionsTest b.name ∨ b.name = "paused" ∨ b.name = "currentTime" then
      none
    else updateDom0
  ({ name := b.name
     object := objName
     handler := handler
     updateDom := updateDom
     initialUpdate := initialUpdate
     needsLock := !isReadOnly && needsLock
     updateCondition := updateCondition
     isReadOnlyMediaAttribute := b.isReadOnlyMediaAttribute }, c2, block2)

/-! Concrete fixtures used to instantiate the theorems below. -/

/-- An empty compiler state: fresh registry, no indirect dependencies, no
computed properties. -/
def emptyCompiler : Compiler :=
  { bindingGroups := [], indirectDependencies := fun _ => none, computations := [] }

/-- An empty code block. -/
def emptyBlock : Block :=
  { uniqueName := fun s => s, bindings := fun _ => none,
    vars := [], hydrate := [], destroy := [] }

/-- A non-contextual binding built from a name, a target node, a snippet and a
dependency list. -/
def mkBinding (n : String) (e : JSNode) (sn : String) (deps : List String) : Binding :=
  { name := n, value := { node := e, snippet := sn, dependencies := deps },
    isContextual := false }

/-- An `<input>` element with the given static `type` attribute. -/
def inputEl (v ty : String) : Element :=
  { name := "input", var := v, isMediaNode := false,
    staticAttr := fun a => if a = "type" then .str ty else .null }

/-- An `<audio>` element (a media node) with no static attributes. -/
def audioEl : Element :=
  { name := "audio", var := "audio1", isMediaNode := true,
    staticAttr := fun _ => .null }

/-- A `<div>` element (not a media node) with no static attributes. -/
def divEl : Element :=
  { name := "div", var := "div1", isMediaNode := false,
    staticAttr := fun _ => .null }

/-- A `bind:duration` directive targeting the identifier `d`. -/
def durationBinding : Binding := mkBinding "duration" (.ident "d") "ctx.d" ["d"]

/-- A `bind:group` directive targeting `selected.items`. -/
def groupBinding : Binding :=
  mkBinding "group" (.member (.ident "selected") "items" false)
    "ctx.selected.items" ["selected"]

/-- A `bind:paused` directive targeting the identifier `p`. -/
def pausedBinding : Binding := mkBinding "paused" (.ident "p") "ctx.p" ["p"]

/-- A `bind:currentTime` directive targeting the identifier `t`. -/
def currentTimeBinding : Binding := mkBinding "currentTime" (.ident "t") "ctx.t" ["t"]

/-- A `bind:volume` directive targeting the identifier `v`. -/
def volumeBinding : Binding := mkBinding "volume" (.ident "v") "ctx.v" ["v"]

/-- A `bind:value` directive on the member target `user.name`. -/
def memberValueBinding : Binding :=
  mkBinding "value" (.member (.ident "user") "name" false) "ctx.user.name" ["user"]

/-- A `bind:value` directive on the bare identifier `count`. -/
def countBinding : Binding := mkBinding "value" (.ident "count") "ctx.count" ["count"]

/-- A `bind:value` directive on the store-prefixed identifier `$store`. -/
def storeBinding : Binding := mkBinding "value" (.ident "$store") "ctx.$store" ["$store"]

/-- A compiler whose computed-state set contains `fullName`. -/
def compilerWithComputation : Compiler :=
  { bindingGroups := [], indirectDependencies := fun _ => none,
    computations := [{ key := "fullName" }] }

/-- Replaying a sequence of registry calls, keeping only the registry. -/
def runCalls (g : List String) (ks : List String) : List String :=
  ks.foldl (fun acc k => (allocGroup acc k).2) g

/-! Projection lemmas: each field of the synthesis bundle, read off `munge`. -/

theorem munge_needsLock (b : Binding) (node : Element) (c : Compiler) (bl : Block) :
    (Binding.munge b node c bl).1.needsLock = (!isReadOnlyOf node b && needsLockOf node) := rfl

theorem munge_isReadOnlyMedia (b : Binding) (node : Element) (c : Compiler) (bl : Block) :
    (Binding.munge b node c bl).1.isReadOnlyMediaAttribute = b.isReadOnlyMediaAttribute := rfl

theorem munge_updateDom (b : Binding) (node : Element) (c : Compiler) (bl : Block) :
    (Binding.munge b node c bl).1.updateDom =
      (if dimensionsTest b.name then none
       else if b.name = "paused" then
         some (pausedUpdateDom node.var (bl.uniqueName (node.var ++ "_is_paused")))
       else getDomUpdater node b b.value.snippet) := rfl

theorem munge_initialUpdate (b : Binding) (node : Element) (c : Compiler) (bl : Block) :
    (Binding.munge b node c bl).1.initialUpdate =
      (if dimensionsTest b.name ∨ b.name = "paused" ∨ b.name = "currentTime" then none
       else getDomUpdater node b b.value.snippet) := rfl

theorem munge_updateCondition (b : Binding) (node : Element) (c : Compiler) (bl : Block) :
    (Binding.munge b node c bl).1.updateCondition =
      (if b.name = "paused" then
         some (pausedUpdateCondition (bl.uniqueName (node.var ++ "_is_paused")) b.value.snippet)
       else if b.name = "currentTime" ∨ b.name = "volume" then
         some (notNaNGuard b.value.snippet)
       else none) := rfl

theorem munge_handler (b : Binding) (node : Element) (c : Compiler) (bl : Block) :
    (Binding.munge b node c bl).1.handler =
      getEventHandler b (getValueFromDom c node b).2 bl (objectName b.value.node)
        b.value.snippet (expandDependencies c b.value.dependencies)
        (getValueFromDom c node b).1 := rfl

/-! Registry lemmas. -/

theorem findIdx?_eq_none {g : List String} {k : String} :
    findIdx? g k = none ↔ k ∉ g := by
  induction g with
  | nil => simp [findIdx?]
  | cons a as ih =>
    by_cases h : a = k
    · subst h; simp [findIdx?]
    · simp [findIdx?, h, Option.map_eq_none', ih, List.mem_cons, Ne.symm h]

theorem findIdx?_append_left {g h : List String} {k : String} {i : Nat}
    (hf : findIdx? g k = some i) : findIdx? (g ++ h) k = some i := by
  induction g generalizing i with
  | nil => simp [findIdx?] at hf
  | cons a as ih =>
    simp only [findIdx?] at hf
    simp only [List.cons_append, findIdx?]
    by_cases hak : a = k
    · rw [if_pos hak] at hf ⊢; exact hf
    · rw [if_neg hak] at hf ⊢
      rw [Option.map_eq_some'] at hf
      obtain ⟨j, hj, hji⟩ := hf
      simp [ih hj, hji]

theorem findIdx?_fresh_append {g : List String} {k : String} (hk : k ∉ g) :
    findIdx? (g ++ [k]) k = some g.length := by
  induction g with
  | nil => simp [findIdx?]
  | cons a as ih =>
    have hak : a ≠ k := fun h => hk (h ▸ List.mem_cons_self a as)
    have hk' : k ∉ as := fun h => hk (List.mem_cons_of_mem a h)
    simp [findIdx?, hak, ih hk']

theorem findIdx?_inj {g : List String} {k1 k2 : String} {i : Nat}
    (h1 : findIdx? g k1 = some i) (h2 : findIdx? g k2 = some i) : k1 = k2 := by
  induction g generalizing i with
  | nil => simp [findIdx?] at h1
  | cons a as ih =>
    simp only [findIdx?] at h1 h2
    by_cases ha1 : a = k1 <;> by_cases ha2 : a = k2
    · exact ha1 ▸ ha2 ▸ rfl
    · rw [if_pos ha1] at h1
      rw [if_neg ha2, Option.map_eq_some'] at h2
      obtain ⟨j, hj, hji⟩ := h2
      injection h1 with h0
      omega
    · rw [if_pos ha2] at h2
      rw [if_neg ha1, Option.map_eq_some'] at h1
      obtain ⟨j, hj, hji⟩ := h1
      injection h2 with h0
      omega
    · rw [if_neg ha1, Option.map_eq_some'] at h1
      rw [if_neg ha2, Option.map_eq_some'] at h2
      obtain ⟨j1, hj1, hji1⟩ := h1
      obtain ⟨j2, hj2, hji2⟩ := h2
      have hjj : j1 = j2 := by omega
      exact ih hj1 (hjj ▸ hj2)

theorem findIdx?_lt_length {g : List String} {k : String} {i : Nat}
    (h : findIdx? g k = some i) : i < g.length := by
  induction g generalizing i with
  | nil => simp [findIdx?] at h
  | cons a as ih =>
    simp only [findIdx?] at h
    by_cases hak : a = k
    · rw [if_pos hak] at h
      injection h with h0
      simp only [List.length_cons]
      omega
    · rw [if_neg hak, Option.map_eq_some'] at h
      obtain ⟨j, hj, hji⟩ := h
      have := ih hj
      simp only [List.length_cons]
      omega

theorem allocGroup_fst_of_found {g : List String} {k : String} {i : Nat}
    (h : findIdx? g k = some i) : allocGroup g k = (i, g) := by
  simp [allocGroup, h]

theorem allocGroup_of_fresh {g : List String} {k : String}
    (h : k ∉ g) : allocGroup g k = (g.length, g ++ [k]) := by
  simp [allocGroup, findIdx?_eq_none.mpr h]

theorem findIdx?_after_alloc (g : List String) (k : String) :
    findIdx? (allocGroup g k).2 k = some (allocGroup g k).1 := by
  cases hf : findIdx? g k with
  | some i => rw [allocGroup_fst_of_found hf]; exact hf
  | none =>
    have hk := findIdx?_eq_none.mp hf
    rw [allocGroup_of_fresh hk]
    exact findIdx?_fresh_append hk

theorem allocGroup_stable (g : List String) (k : String) :
    allocGroup (allocGroup g k).2 k = ((allocGroup g k).1, (allocGroup g k).2) := by
  have := findIdx?_after_alloc g k
  rw [allocGroup_fst_of_found this]

theorem runCalls_extends (g : List String) (ks : List String) :
    ∃ h, runCalls g ks = g ++ h := by
  induction ks generalizing g with
  | nil => exact ⟨[], by simp [runCalls]⟩
  | cons k ks ih =>
    have hstep : runCalls g (k :: ks) = runCalls (allocGroup g k).2 ks := rfl
    cases hf : findIdx? g k with
    | some i =>
      obtain ⟨h, hh⟩ := ih g
      refine ⟨h, ?_⟩
      rw [hstep, allocGroup_fst_of_found hf]
      exact hh
    | none =>
      have hk := findIdx?_eq_none.mp hf
      obtain ⟨h, hh⟩ := ih (g ++ [k])
      refine ⟨[k] ++ h, ?_⟩
      rw [hstep, allocGroup_of_fresh hk, hh, List.append_assoc]

/-- C2: the binding-group registry is a deterministic allocate-or-lookup map:
string-equal keypaths get the same index, distinct keypaths get different
indices, a fresh keypath gets the next sequential index (so indices start at 0
on an empty registry), and an assigned index survives any sequence of further
calls unchanged (never reused or compacted). -/
theorem bindingGroup_registry_spec (g : List String) (k k1 k2 : String) (ks : List String) :
    (k1 = k2 → (allocGroup g k1).1 = (allocGroup g k2).1) ∧
    (k1 ≠ k2 → (allocGroup (allocGroup g k1).2 k2).1 ≠ (allocGroup g k1).1) ∧
    (k ∉ g → (allocGroup g k).1 = g.length) ∧
    (allocGroup (runCalls (allocGroup g k).2 ks) k).1 = (allocGroup g k).1 := by
  refine ⟨fun h => h ▸ rfl, ?_, ?_, ?_⟩
  · intro hne
    cases hf1 : findIdx? g k1 with
    | some i =>
      rw [allocGroup_fst_of_found hf1]
      dsimp only
      cases hf2 : findIdx? g k2 with
      | some j =>
        rw [allocGroup_fst_of_found hf2]
        dsimp only
        intro hji
        exact hne (findIdx?_inj hf1 (hji ▸ hf2))
      | none =>
        have hk2 := findIdx?_eq_none.mp hf2
        rw [allocGroup_of_fresh hk2]
        dsimp only
        have := findIdx?_lt_length hf1
        omega
    | none =>
      have hk1 := findIdx?_eq_none.mp hf1
      rw [allocGroup_of_fresh hk1]
      dsimp only
      cases hf2 : findIdx? (g ++ [k1]) k2 with
      | some j =>
        rw [allocGroup_fst_of_found hf2]
        dsimp only
        intro hji
        exact hne (findIdx?_inj (findIdx?_fresh_append hk1) (hji ▸ hf2))
      | none =>
        have hk2 := findIdx?_eq_none.mp hf2
        rw [allocGroup_of_fresh hk2]
        dsimp only
        simp
  · intro hk
    rw [allocGroup_of_fresh hk]
  · obtain ⟨h, hh⟩ := runCalls_extends (allocGroup g k).2 ks
    rw [hh, allocGroup_fst_of_found (findIdx?_append_left (findIdx?_after_alloc g k))]

/-- C2 witness: the registry properties evaluated on a concrete call sequence. -/
theorem bindingGroup_registry_spec_witness :
    (allocGroup (allocGroup ["x"] "a").2 "b").1 ≠ (allocGroup ["x"] "a").1 ∧
    (allocGroup ["x"] "b").1 = 1 ∧
    (allocGroup (runCalls (allocGroup ["x"] "b").2 ["c", "b", "x"]) "b").1 =
      (allocGroup ["x"] "b").1 :=
  ⟨(bindingGroup_registry_spec ["x"] "b" "a" "b" ["c", "b", "x"]).2.1 (by decide),
   (bindingGroup_registry_spec ["x"] "b" "a" "b" ["c", "b", "x"]).2.2.1 (by decide),
   (bindingGroup_registry_spec ["x"] "b" "a" "b" ["c", "b", "x"]).2.2.2⟩

/-- C1 fails as stated: `bind:duration` on an `<audio>` element is not an input
with an exempt static type, yet the synthesized needsLock flag is false,
because the returned flag is also masked by read-only status. -/
theorem needsLock_claim_counterexample :
    (Binding.munge durationBinding audioEl emptyCompiler emptyBlock).1.needsLock = false ∧
      audioEl.name ≠ "input" := by
  exact ⟨rfl, by decide⟩

/-- C1 (amended): the synthesized needsChangeLock flag is true iff the binding
is not read-only (read-only media attribute on a media node, or dimension
binding) and the host is not an input whose static type matches the unanchored
pattern radio|checkbox|range|color. -/
theorem needsLock_amended (b : Binding) (node : Element) (c : Compiler) (bl : Block) :
    (Binding.munge b node c bl).1.needsLock = true ↔
      (isReadOnlyOf node b = false ∧
        (node.name = "input" →
          typeRegexTest ((node.getStaticAttributeValue "type").coerceToString) = false)) := by
  rw [munge_needsLock]
  unfold needsLockOf
  cases hro : isReadOnlyOf node b <;>
    cases ht : typeRegexTest ((node.getStaticAttributeValue "type").coerceToString) <;>
      by_cases hn : node.name = "input" <;>
        simp [hn, ht, Bool.and_eq_true, Bool.or_eq_true, Bool.not_eq_true', bne_iff_ne]

/-- C1 witness: the amended equivalence at a concrete directive. -/
theorem needsLock_amended_witness :
    ((Binding.munge durationBinding audioEl emptyCompiler emptyBlock).1.needsLock = true ↔
      (isReadOnlyOf audioEl durationBinding = false ∧
        (audioEl.name = "input" →
          typeRegexTest ((audioEl.getStaticAttributeValue "type").coerceToString) = false))) :=
  needsLock_amended durationBinding audioEl emptyCompiler emptyBlock

theorem strData_append (a b : String) : (a ++ b).data = a.data ++ b.data := rfl

theorem fmtProp_inj {a b : String} (h : fmtProp a = fmtProp b) : a = b := by
  have hd := congrArg String.data h
  simp only [fmtProp, strData_append] at hd
  have hlen : a.data.length = b.data.length := by
    have := congrArg List.length hd
    simp only [List.length_append] at this
    omega
  have hfst : a.data ++ (": ctx.").data = b.data ++ (": ctx.").data ∧ a.data = b.data :=
    List.append_inj hd (by simp [List.length_append, hlen])
  have hdata := hfst.2
  cases a
  cases b
  exact congrArg String.mk hdata

/-- C3: for a non-contextual member-expression target, the emitted props list
never contains an entry for a name in the compiler's computed-state set,
whatever the dependency set is. -/
theorem memberProps_exclude_computations
    (b : Binding) (c : Compiler) (bl : Block) (name snippet value key : String)
    (deps : List String)
    (hctx : b.isContextual = false)
    (hmem : b.value.node.isMember = true)
    (hkey : key ∈ c.computations.map Computation.key) :
    fmtProp key ∉ (getEventHandler b c bl name snippet deps value).props := by
  intro hin
  have hin2 : fmtProp key ∈
      (((deps.filter (fun p => !startsWithDollar p)).filter
        (fun p => !c.computations.any (fun x => x.key == p))).map fmtProp) := by
    simpa only [getEventHandler, hctx, hmem, Bool.false_eq_true, if_false, if_true,
      reduceIte] using hin
  rw [List.mem_map] at hin2
  obtain ⟨d, hd, he⟩ := hin2
  obtain rfl : d = key := fmtProp_inj he
  rw [List.mem_filter] at hd
  have hany := hd.2
  rw [List.mem_map] at hkey
  obtain ⟨comp, hcomp, hck⟩ := hkey
  have hisany : c.computations.any (fun x => x.key == d) = true :=
    List.any_eq_true.mpr ⟨comp, hcomp, by simp [hck]⟩
  simp [hisany] at hany

/-- C3 witness: with computed key `fullName` among the dependencies of a
member-expression target, no props entry is emitted for it. -/
theorem memberProps_exclude_computations_witness :
    fmtProp "fullName" ∉
      (getEventHandler memberValueBinding compilerWithComputation emptyBlock
        "user" "ctx.user.name" ["user", "fullName"] "input1.value").props :=
  memberProps_exclude_computations memberValueBinding compilerWithComputation emptyBlock
    "user" "ctx.user.name" "input1.value" "fullName" ["user", "fullName"]
    rfl rfl (by decide)

/-- C4: a read-only media attribute on a media element, or a dimension binding,
yields no model-to-view write statement, the read-only predicate holds, and the
result's isReadOnlyMediaAttribute reports name membership in the media set. -/
theorem readonly_no_dom_write (b : Binding) (node : Element) (c : Compiler) (bl : Block)
    (h : (node.isMediaNode = true ∧ b.name ∈ readOnlyMediaAttributes) ∨
      dimensionsTest b.name = true) :
    (Binding.munge b node c bl).1.updateDom = none ∧
      isReadOnlyOf node b = true ∧
      (Binding.munge b node c bl).1.isReadOnlyMediaAttribute =
        readOnlyMediaAttributes.contains b.name := by
  refine ⟨?_, ?_, munge_isReadOnlyMedia b node c bl⟩
  · rw [munge_updateDom]
    rcases h with ⟨hm, hname⟩ | hdim
    · have hname' : b.name = "duration" ∨ b.name = "buffered" ∨
          b.name = "seekable" ∨ b.name = "played" := by
        simpa [readOnlyMediaAttributes] using hname
      rcases hname' with h | h | h | h <;>
        simp [h, dimensionsTest, getDomUpdater, Binding.isReadOnlyMediaAttribute,
          readOnlyMediaAttributes]
    · simp [hdim]
  · rcases h with ⟨hm, hname⟩ | hdim
    · have hname' : b.name = "duration" ∨ b.name = "buffered" ∨
          b.name = "seekable" ∨ b.name = "played" := by
        simpa [readOnlyMediaAttributes] using hname
      rcases hname' with h | h | h | h <;>
        simp [isReadOnlyOf, hm, h, readOnlyMediaAttributes]
    · simp [isReadOnlyOf, hdim]

/-- C4 witness: `bind:duration` on an `<audio>` element. -/
theorem readonly_no_dom_write_witness :
    (Binding.munge durationBinding audioEl emptyCompiler emptyBlock).1.updateDom = none ∧
      isReadOnlyOf audioEl durationBinding = true ∧
      (Binding.munge durationBinding audioEl emptyCompiler emptyBlock).1.isReadOnlyMediaAttribute =
        readOnlyMediaAttributes.contains durationBinding.name :=
  readonly_no_dom_write durationBinding audioEl emptyCompiler emptyBlock
    (Or.inl ⟨rfl, by decide⟩)

/-- C5: `currentTime` and dimension bindings suppress the initial-render write;
`paused` synthesizes a guarded play/pause invocation instead of a plain write,
with the old-versus-new comparison as update condition, and also suppresses the
initial-render write. -/
theorem special_case_initial_and_paused (b : Binding) (node : Element) (c : Compiler)
    (bl : Block) :
    ((b.name = "currentTime" ∨ dimensionsTest b.name = true) →
      (Binding.munge b node c bl).1.initialUpdate = none) ∧
    (b.name = "paused" →
      (Binding.munge b node c bl).1.updateDom =
        some (pausedUpdateDom node.var (bl.uniqueName (node.var ++ "_is_paused"))) ∧
      (Binding.munge b node c bl).1.updateCondition =
        some (pausedUpdateCondition (bl.uniqueName (node.var ++ "_is_paused"))
          b.value.snippet) ∧
      (Binding.munge b node c bl).1.initialUpdate = none) := by
  constructor
  · intro h
    rw [munge_initialUpdate]
    rcases h with h | h <;> simp [h]
  · intro h
    refine ⟨?_, ?_, ?_⟩
    · rw [munge_updateDom]; simp [h, dimensionsTest]
    · rw [munge_updateCondition]; simp [h]
    · rw [munge_initialUpdate]; simp [h]

/-- C5 witness: `bind:currentTime` and `bind:paused` on an `<audio>` element. -/
theorem special_case_initial_and_paused_witness :
    (Binding.munge currentTimeBinding audioEl emptyCompiler emptyBlock).1.initialUpdate = none ∧
    (Binding.munge pausedBinding audioEl emptyCompiler emptyBlock).1.updateDom =
      some (pausedUpdateDom audioEl.var (emptyBlock.uniqueName (audioEl.var ++ "_is_paused"))) ∧
    (Binding.munge pausedBinding audioEl emptyCompiler emptyBlock).1.updateCondition =
      some (pausedUpdateCondition (emptyBlock.uniqueName (audioEl.var ++ "_is_paused"))
        pausedBinding.value.snippet) ∧
    (Binding.munge pausedBinding audioEl emptyCompiler emptyBlock).1.initialUpdate = none :=
  ⟨(special_case_initial_and_paused currentTimeBinding audioEl emptyCompiler emptyBlock).1
      (Or.inl rfl),
   (special_case_initial_and_paused pausedBinding audioEl emptyCompiler emptyBlock).2 rfl⟩

/-- C6: `currentTime` and `volume` get the not-NaN update guard; `currentTime`
additionally suppresses the initial-render write while `volume` keeps it (and
its write statement always exists). -/
theorem notNaN_guard_spec (b : Binding) (node : Element) (c : Compiler) (bl : Block) :
    ((b.name = "currentTime" ∨ b.name = "volume") →
      (Binding.munge b node c bl).1.updateCondition = some (notNaNGuard b.value.snippet)) ∧
    (b.name = "currentTime" → (Binding.munge b node c bl).1.initialUpdate = none) ∧
    (b.name = "volume" →
      (Binding.munge b node c bl).1.initialUpdate = getDomUpdater node b b.value.snippet ∧
      (getDomUpdater node b b.value.snippet).isSome = true) := by
  refine ⟨?_, ?_, ?_⟩
  · intro h
    rw [munge_updateCondition]
    rcases h with h | h <;> simp [h]
  · intro h
    rw [munge_initialUpdate]; simp [h]
  · intro h
    constructor
    · rw [munge_initialUpdate]; simp [h, dimensionsTest]
    · by_cases hs : node.name = "select"
      · by_cases hm : node.getStaticAttributeValue "multiple" = StaticAttrValue.boolTrue <;>
          simp [getDomUpdater, h, Binding.isReadOnlyMediaAttribute,
            readOnlyMediaAttributes, hs, hm]
      · simp [getDomUpdater, h, Binding.isReadOnlyMediaAttribute,
          readOnlyMediaAttributes, hs]

/-- C6 witness: `bind:currentTime` and `bind:volume` on an `<audio>` element. -/
theorem notNaN_guard_spec_witness :
    (Binding.munge currentTimeBinding audioEl emptyCompiler emptyBlock).1.updateCondition =
      some (notNaNGuard currentTimeBinding.value.snippet) ∧
    (Binding.munge volumeBinding audioEl emptyCompiler emptyBlock).1.updateCondition =
      some (notNaNGuard volumeBinding.value.snippet) ∧
    (Binding.munge currentTimeBinding audioEl emptyCompiler emptyBlock).1.initialUpdate = none ∧
    (Binding.munge volumeBinding audioEl emptyCompiler emptyBlock).1.initialUpdate =
      getDomUpdater audioEl volumeBinding volumeBinding.value.snippet ∧
    (getDomUpdater audioEl volumeBinding volumeBinding.value.snippet).isSome = true :=
  ⟨(notNaN_guard_spec currentTimeBinding audioEl emptyCompiler emptyBlock).1 (Or.inl rfl),
   (notNaN_guard_spec volumeBinding audioEl emptyCompiler emptyBlock).1 (Or.inr rfl),
   (notNaN_guard_spec currentTimeBinding audioEl emptyCompiler emptyBlock).2.1 rfl,
   (notNaN_guard_spec volumeBinding audioEl emptyCompiler emptyBlock).2.2 rfl⟩

/-- C7: a non-contextual bare-identifier target yields no mutation statement;
a store-prefixed name yields no props and exactly one storeProps entry, any
other name yields exactly one props entry and no storeProps. -/
theorem bare_identifier_handler (b : Binding) (node : Element) (c : Compiler)
    (bl : Block) (n : String)
    (hctx : b.isContextual = false) (hnode : b.value.node = JSNode.ident n) :
    (Binding.munge b node c bl).1.handler.mutation = none ∧
    (startsWithDollar n = true →
      (Binding.munge b node c bl).1.handler.props = [] ∧
      (Binding.munge b node c bl).1.handler.storeProps =
        [n.drop 1 ++ ": " ++ (getValueFromDom c node b).1]) ∧
    (startsWithDollar n = false →
      (Binding.munge b node c bl).1.handler.props =
        [n ++ ": " ++ (getValueFromDom c node b).1] ∧
      (Binding.munge b node c bl).1.handler.storeProps = []) := by
  rw [munge_handler]
  have hobj : objectName b.value.node = n := by simp [hnode, objectName, getObject]
  rw [hobj]
  refine ⟨?_, ?_, ?_⟩
  · by_cases hd : startsWithDollar n <;>
      simp [getEventHandler, hctx, hnode, JSNode.isMember, hd]
  · intro hd
    simp [getEventHandler, hctx, hnode, JSNode.isMember, hd]
  · intro hd
    simp [getEventHandler, hctx, hnode, JSNode.isMember, hd]

/-- C7 witness: store-prefixed `bind:value=$store` and plain `bind:value=count`
on a text input. -/
theorem bare_identifier_handler_witness :
    (Binding.munge storeBinding (inputEl "input1" "text") emptyCompiler
        emptyBlock).1.handler.mutation = none ∧
    (Binding.munge storeBinding (inputEl "input1" "text") emptyCompiler
        emptyBlock).1.handler.props = [] ∧
    (Binding.munge storeBinding (inputEl "input1" "text") emptyCompiler
        emptyBlock).1.handler.storeProps =
      ["$store".drop 1 ++ ": " ++
        (getValueFromDom emptyCompiler (inputEl "input1" "text") storeBinding).1] ∧
    (Binding.munge countBinding (inputEl "input1" "text") emptyCompiler
        emptyBlock).1.handler.props =
      ["count" ++ ": " ++
        (getValueFromDom emptyCompiler (inputEl "input1" "text") countBinding).1] ∧
    (Binding.munge countBinding (inputEl "input1" "text") emptyCompiler
        emptyBlock).1.handler.storeProps = [] :=
  ⟨(bare_identifier_handler storeBinding (inputEl "input1" "text") emptyCompiler
      emptyBlock "$store" rfl rfl).1,
   ((bare_identifier_handler storeBinding (inputEl "input1" "text") emptyCompiler
      emptyBlock "$store" rfl rfl).2.1 (by decide)).1,
   ((bare_identifier_handler storeBinding (inputEl "input1" "text") emptyCompiler
      emptyBlock "$store" rfl rfl).2.1 (by decide)).2,
   ((bare_identifier_handler countBinding (inputEl "input1" "text") emptyCompiler
      emptyBlock "count" rfl rfl).2.2 (by decide)).1,
   ((bare_identifier_handler countBinding (inputEl "input1" "text") emptyCompiler
      emptyBlock "count" rfl rfl).2.2 (by decide)).2⟩

theorem mem_setAdd {s : List String} {x y : String} :
    y ∈ setAdd s x ↔ y ∈ s ∨ y = x := by
  unfold setAdd
  by_cases h : x ∈ s
  · simp only [if_pos h]
    constructor
    · exact Or.inl
    · rintro (hy | rfl)
      · exact hy
      · exact h
  · simp [if_neg h, List.mem_append]

theorem mem_addAll {s xs : List String} {y : String} :
    y ∈ addAll s xs ↔ y ∈ s ∨ y ∈ xs := by
  induction xs generalizing s with
  | nil => simp [addAll]
  | cons x xs ih =>
    have hstep : addAll s (x :: xs) = addAll (setAdd s x) xs := rfl
    rw [hstep, ih, mem_setAdd]
    simp [List.mem_cons]
    tauto

theorem mem_indStep {c : Compiler} {acc : List String} {p y : String} :
    y ∈ indStep c acc p ↔
      y ∈ acc ∨ ∃ ind, c.indirectDependencies p = some ind ∧ y ∈ ind := by
  unfold indStep
  cases h : c.indirectDependencies p with
  | some ind => simp [mem_addAll, h]
  | none => simp [h]

theorem mem_foldl_indStep {c : Compiler} {base acc : List String} {y : String} :
    y ∈ base.foldl (indStep c) acc ↔
      y ∈ acc ∨ ∃ p ∈ base, ∃ ind, c.indirectDependencies p = some ind ∧ y ∈ ind := by
  induction base generalizing acc with
  | nil => simp
  | cons p ps ih =>
    rw [List.foldl_cons, ih, mem_indStep]
    constructor
    · rintro ((hy | ⟨ind, hind, hyi⟩) | ⟨q, hq, ind, hind, hyi⟩)
      · exact Or.inl hy
      · exact Or.inr ⟨p, List.mem_cons_self p ps, ind, hind, hyi⟩
      · exact Or.inr ⟨q, List.mem_cons_of_mem p hq, ind, hind, hyi⟩
    · rintro (hy | ⟨q, hq, ind, hind, hyi⟩)
      · exact Or.inl (Or.inl hy)
      · rcases List.mem_cons.mp hq with rfl | hq'
        · exact Or.inl (Or.inr ⟨ind, hind, hyi⟩)
        · exact Or.inr ⟨q, hq', ind, hind, hyi⟩

/-- C8: the dependency set handed to the event-handler builder is exactly the
base dependency set of the target expression plus, for each base dependency,
every indirect dependency registered for it — nothing less, nothing more. -/
theorem dependency_expansion_spec (c : Compiler) (base : List String) (y : String)
    (b : Binding) (node : Element) (bl : Block) :
    (y ∈ expandDependencies c base ↔
      y ∈ base ∨ ∃ p ∈ base, ∃ ind, c.indirectDependencies p = some ind ∧ y ∈ ind) ∧
    (Binding.munge b node c bl).1.handler =
      getEventHandler b (getValueFromDom c node b).2 bl (objectName b.value.node)
        b.value.snippet (expandDependencies c b.value.dependencies)
        (getValueFromDom c node b).1 := by
  refine ⟨?_, munge_handler b node c bl⟩
  unfold expandDependencies
  rw [mem_foldl_indStep, mem_addAll]
  simp

theorem munge_group_effect (d : Binding) (e : Element) (c : Compiler) (bl : Block)
    (hd : d.name = "group") (he : e.name = "input") :
    (Binding.munge d e c bl).2.1 =
      { c with bindingGroups := (allocGroup c.bindingGroups (keypathOf d.value.node)).2 } ∧
    (Binding.munge d e c bl).2.2 =
      { bl with
          hydrate := bl.hydrate ++
            [regLine (allocGroup c.bindingGroups (keypathOf d.value.node)).1 e.var]
          destroy := bl.destroy ++
            [unregLine (allocGroup c.bindingGroups (keypathOf d.value.node)).1 e.var] } := by
  have hvfd2 : (getValueFromDom c e d).2 =
      { c with bindingGroups := (allocGroup c.bindingGroups (keypathOf d.value.node)).2 } := by
    unfold getValueFromDom getBindingGroup
    by_cases ht : e.staticAttr "type" = StaticAttrValue.str "checkbox" <;>
      simp [Element.getStaticAttributeValue, he, hd, ht]
  have hgbg : getBindingGroup (getValueFromDom c e d).2 d.value.node =
      ((allocGroup c.bindingGroups (keypathOf d.value.node)).1,
       (getValueFromDom c e d).2) := by
    rw [hvfd2]
    unfold getBindingGroup
    simp [allocGroup_stable]
  constructor
  · simp only [Binding.munge]
    simp only [hd, reduceIte]
    rw [hgbg]
    exact hvfd2
  · simp only [Binding.munge]
    simp [hd, hgbg]

/-- C9: two group directives with string-equal keypaths on two checkbox inputs
synthesize to the same group index; each munge appends exactly one registration
line to the block's hydrate list and one deregistration line to its destroy
list, and modifies nothing else in the block. -/
theorem group_shared_index_and_block_effect
    (d1 d2 : Binding) (e1 e2 : Element) (c : Compiler) (bl : Block)
    (h1 : d1.name = "group") (h2 : d2.name = "group")
    (he1 : e1.name = "input") (he2 : e2.name = "input")
    (ht1 : e1.getStaticAttributeValue "type" = StaticAttrValue.str "checkbox")
    (ht2 : e2.getStaticAttributeValue "type" = StaticAttrValue.str "checkbox")
    (hkp : keypathOf d2.value.node = keypathOf d1.value.node) :
    (Binding.munge d1 e1 c bl).2.2 =
      { bl with
          hydrate := bl.hydrate ++
            [regLine (allocGroup c.bindingGroups (keypathOf d1.value.node)).1 e1.var]
          destroy := bl.destroy ++
            [unregLine (allocGroup c.bindingGroups (keypathOf d1.value.node)).1 e1.var] } ∧
    (Binding.munge d2 e2 (Binding.munge d1 e1 c bl).2.1
        (Binding.munge d1 e1 c bl).2.2).2.2 =
      { bl with
          hydrate := bl.hydrate ++
            [regLine (allocGroup c.bindingGroups (keypathOf d1.value.node)).1 e1.var,
             regLine (allocGroup c.bindingGroups (keypathOf d1.value.node)).1 e2.var]
          destroy := bl.destroy ++
            [unregLine (allocGroup c.bindingGroups (keypathOf d1.value.node)).1 e1.var,
             unregLine (allocGroup c.bindingGroups (keypathOf d1.value.node)).1 e2.var] } := by
  obtain ⟨hc1, hb1⟩ := munge_group_effect d1 e1 c bl h1 he1
  refine ⟨hb1, ?_⟩
  obtain ⟨hc2, hb2⟩ := munge_group_effect d2 e2 (Binding.munge d1 e1 c bl).2.1
    (Binding.munge d1 e1 c bl).2.2 h2 he2
  rw [hb2, hb1, hc1, hkp]
  dsimp only
  rw [allocGroup_stable]
  dsimp only
  simp [List.append_assoc]

/-- C9 witness: the same `bind:group=selected.items` directive on two checkbox
inputs, starting from an empty registry and an empty block. -/
theorem group_shared_index_and_block_effect_witness :
    (Binding.munge groupBinding (inputEl "input1" "checkbox") emptyCompiler
        emptyBlock).2.2 =
      { emptyBlock with
          hydrate := emptyBlock.hydrate ++
            [regLine (allocGroup emptyCompiler.bindingGroups
              (keypathOf groupBinding.value.node)).1 (inputEl "input1" "checkbox").var]
          destroy := emptyBlock.destroy ++
            [unregLine (allocGroup emptyCompiler.bindingGroups
              (keypathOf groupBinding.value.node)).1 (inputEl "input1" "checkbox").var] } ∧
    (Binding.munge groupBinding (inputEl "input2" "checkbox")
        (Binding.munge groupBinding (inputEl "input1" "checkbox") emptyCompiler
          emptyBlock).2.1
        (Binding.munge groupBinding (inputEl "input1" "checkbox") emptyCompiler
          emptyBlock).2.2).2.2 =
      { emptyBlock with
          hydrate := emptyBlock.hydrate ++
            [regLine (allocGroup emptyCompiler.bindingGroups
              (keypathOf groupBinding.value.node)).1 (inputEl "input1" "checkbox").var,
             regLine (allocGroup emptyCompiler.bindingGroups
              (keypathOf groupBinding.value.node)).1 (inputEl "input2" "checkbox").var]
          destroy := emptyBlock.destroy ++
            [unregLine (allocGroup emptyCompiler.bindingGroups
              (keypathOf groupBinding.value.node)).1 (inputEl "input1" "checkbox").var,
             unregLine (allocGroup emptyCompiler.bindingGroups
              (keypathOf groupBinding.value.node)).1 (inputEl "input2" "checkbox").var] } :=
  group_shared_index_and_block_effect groupBinding groupBinding
    (inputEl "input1" "checkbox") (inputEl "input2" "checkbox") emptyCompiler emptyBlock
    rfl rfl rfl rfl (by decide) (by decide) rfl

/-- C10: a read-only media attribute on a non-media element still yields no
model-to-view write statement (the suppression is name-based), the result
still reports isReadOnlyMediaAttribute, while the needsLock computation's
read-only predicate is false because it also requires a media node. -/
theorem readonly_media_on_non_media (b : Binding) (node : Element) (c : Compiler)
    (bl : Block)
    (hname : b.name ∈ readOnlyMediaAttributes) (hm : node.isMediaNode = false) :
    (Binding.munge b node c bl).1.updateDom = none ∧
      (Binding.munge b node c bl).1.isReadOnlyMediaAttribute = true ∧
      isReadOnlyOf node b = false := by
  have hname' : b.name = "duration" ∨ b.name = "buffered" ∨
      b.name = "seekable" ∨ b.name = "played" := by
    simpa [readOnlyMediaAttributes] using hname
  refine ⟨?_, ?_, ?_⟩
  · rw [munge_updateDom]
    rcases hname' with h | h | h | h <;>
      simp [h, dimensionsTest, getDomUpdater, Binding.isReadOnlyMediaAttribute,
        readOnlyMediaAttributes]
  · rw [munge_isReadOnlyMedia]
    rcases hname' with h | h | h | h <;>
      simp [h, Binding.isReadOnlyMediaAttribute, readOnlyMediaAttributes]
  · rcases hname' with h | h | h | h <;> simp [isReadOnlyOf, hm, h, dimensionsTest]

/-- C10 witness: `bind:duration` on a `<div>`. -/
theorem readonly_media_on_non_media_witness :
    (Binding.munge durationBinding divEl emptyCompiler emptyBlock).1.updateDom = none ∧
      (Binding.munge durationBinding divEl emptyCompiler
        emptyBlock).1.isReadOnlyMediaAttribute = true ∧
      isReadOnlyOf divEl durationBinding = false :=
  readonly_media_on_non_media durationBinding divEl emptyCompiler emptyBlock
    (by decide) rfl

end Svelte
